import Mathlib

/-!
Shallow embedding of the VLC object core (`src/misc/objects.c`): reference
counting (`vlc_object_hold` / `vlc_object_release`), the global ownership
collection (`tree_list` guarded by `tree_lock`), object creation
(`vlc_custom_create`), destruction (`vlc_object_destroy`), the child listing
(`vlc_list_children`), the untrusted-pointer validator (`ObjectExists`) and
the `vars` debug command (`VarsCommand`).

Objects are identified by natural numbers (standing for their addresses).
The mutable heap is a `SysState`: an association list from identifiers to
object records plus the global `tree_list` of attached (parented) objects.
Stateful C functions become Lean functions from state to
`Option (state × ...)`; `none` models a fatal outcome (a failed `assert`,
use of a freed object, or exhausted recursion fuel).  Each operation also
returns a trace of `Event`s recording lock acquisition/release, list
mutation, the atomic decrement, destruction steps and (recursive) release
calls, so that ordering claims ("removed while the lock is held, then
destroyed, then the parent is released") can be stated about the trace.
-/

set_option autoImplicit false

namespace VlcObjects

/-- The per-object data: `vlc_object_internals_t` together with the
`vlc_object_t` fields used by `objects.c` (`typename`, the atomic `refs`
counter, `parent`, the `resources` slot, `pf_destructor`, `no_interact`,
`force`, the inherited logger, and the object's variables with their
registered callbacks). -/
structure Obj where
  typename : String
  refs : Nat
  parent : Option Nat
  resources : Bool
  hasDestructor : Bool
  noInteract : Bool
  force : Bool
  logger : Nat
  vars : List String
  callbacks : List (String × String)
deriving DecidableEq

/-- The global mutable state: the set of live (not yet freed) objects as an
association list from identifier (address) to `Obj`, and `tree_list`, the
global collection holding every object that has a parent, in insertion
order. -/
structure SysState where
  objs : List (Nat × Obj)
  treeList : List Nat
deriving DecidableEq

/-- Look an object up by identifier (dereferencing a pointer). -/
def SysState.find (st : SysState) (id : Nat) : Option Obj :=
  (st.objs.find? (fun p => p.fst == id)).map Prod.snd

/-- Overwrite the object stored at `id` (a field update through a pointer). -/
def SysState.update (st : SysState) (id : Nat) (o : Obj) : SysState :=
  { st with objs := st.objs.map (fun p => if p.fst == id then (id, o) else p) }

/-- Free the block of object `id` (`free(priv)`): it is no longer live. -/
def SysState.removeObj (st : SysState) (id : Nat) : SysState :=
  { st with objs := st.objs.filter (fun p => p.fst != id) }

/-- `vlc_list_remove` on the object's node in `tree_list`. -/
def SysState.listRemove (st : SysState) (id : Nat) : SysState :=
  { st with treeList := st.treeList.erase id }

/-- `vlc_list_append` of the object's node onto `tree_list`. -/
def SysState.listAppend (st : SysState) (id : Nat) : SysState :=
  { st with treeList := st.treeList ++ [id] }

/-- Observable actions of the C code, recorded in execution traces:
taking/releasing `tree_lock`, mutating `tree_list`, the atomic decrement,
entry into `vlc_object_hold` / `vlc_object_release` / `vlc_object_destroy`,
the individual destruction steps, variable registration, and the output and
logging of the debug commands. -/
inductive Event where
  | releaseCall (id : Nat)
  | holdCall (id : Nat)
  | decRefs (id : Nat)
  | lockTree
  | unlockTree
  | listRemove (id : Nat)
  | listAppend (id : Nat)
  | destroy (id : Nat)
  | assertResources (id : Nat)
  | callDestructor (id : Nat)
  | delCallback (id : Nat) (name : String)
  | varCreate (id : Nat) (name : String)
  | addCallback (id : Nat) (name : String)
  | destroyAllVars (id : Nat)
  | condDestroy (id : Nat)
  | mutexDestroy (id : Nat)
  | freeObj (id : Nat)
  | msgErr (id : Nat)
  | printObj (id : Nat)
  | dumpVars (id : Nat)
deriving DecidableEq

/-- Whether `c` is a child of `p`: the test `pos->parent == vlc_externals(priv)`
of the `vlc_children_foreach` macro, applied to a `tree_list` entry. -/
def isChildOf (st : SysState) (c p : Nat) : Bool :=
  match st.find c with
  | some o => o.parent == some p
  | none => false

/-- The children of `p`, in `tree_list` order: the sequence of objects
visited by `vlc_children_foreach`. -/
def childrenOf (st : SysState) (p : Nat) : List Nat :=
  st.treeList.filter (fun c => isChildOf st c p)

/-- `ObjectHasChildLocked`: does any `tree_list` entry have `obj` as its
parent? -/
def ObjectHasChildLocked (st : SysState) (id : Nat) : Bool :=
  !(childrenOf st id).isEmpty

/-- `vlc_object_hold`: atomically increments the reference counter and
returns the same handle.  The C code asserts that the previous value was
nonzero (`assert (refs > 0)`), a fatal programming-error detector: calling
it on an object whose counter already reached zero is modelled as `none`. -/
def vlc_object_hold (st : SysState) (id : Nat) : Option (SysState × Nat) :=
  match st.find id with
  | none => none
  | some o =>
    if o.refs = 0 then none
    else some (st.update id { o with refs := o.refs + 1 }, id)

/-- The ordered steps performed by `vlc_object_destroy`: assert that no
attached resources remain, invoke the custom destructor if set, for a
parent-less object delete the `vars` and `tree` command callbacks, destroy
all variables, destroy the variable condition and mutex, and free the
block. -/
def destroyTrace (id : Nat) (o : Obj) : List Event :=
  Event.destroy id :: Event.assertResources id ::
    ((if o.hasDestructor then [Event.callDestructor id] else []) ++
     (match o.parent with
      | none => [Event.delCallback id "vars", Event.delCallback id "tree"]
      | some _ => []) ++
     [Event.destroyAllVars id, Event.condDestroy id,
      Event.mutexDestroy id, Event.freeObj id])

/-- `vlc_object_destroy`: runs once the counter reached zero.  `none` models
the fatal `assert(p_priv->resources == NULL)` (and calling it on an already
freed object).  On success the object is removed from the live heap and the
trace records the destruction steps in order. -/
def vlc_object_destroy (st : SysState) (id : Nat) :
    Option (SysState × List Event) :=
  match st.find id with
  | none => none
  | some o =>
    if o.resources then none
    else some (st.removeObj id, destroyTrace id o)

/-- `vlc_object_release`, with explicit fuel bounding the recursion through
the parent chain (`vlc_object_release (parent)`); `none` on exhausted fuel
or a failed assertion.  Fast path: an observed count above one is decremented
by compare-and-swap and the function returns (in this sequential model the
CAS always succeeds).  Root path (no parent): decrement, assert the old
count was exactly 1, assert there is no child (`ObjectHasChild` takes and
releases `tree_lock`), destroy.  Slow path (parent present): take
`tree_lock`, decrement, assert the old count was nonzero, and if it was 1
remove the object from `tree_list` while still holding the lock, release the
lock, assert there is no child, destroy the object and finally release the
parent. -/
def vlc_object_release : Nat → SysState → Nat → Option (SysState × List Event)
  | 0, _, _ => none
  | fuel + 1, st, id =>
    match st.find id with
    | none => none
    | some o =>
      if 1 < o.refs then
        some (st.update id { o with refs := o.refs - 1 },
              [Event.releaseCall id, Event.decRefs id])
      else
        match o.parent with
        | none =>
          if o.refs = 1 then
            if ObjectHasChildLocked (st.update id { o with refs := o.refs - 1 }) id then
              none
            else
              match vlc_object_destroy (st.update id { o with refs := o.refs - 1 }) id with
              | none => none
              | some (st2, dev) =>
                some (st2, [Event.releaseCall id, Event.decRefs id,
                            Event.lockTree, Event.unlockTree] ++ dev)
          else none
        | some parent =>
          if o.refs = 0 then none
          else
            if ObjectHasChildLocked
                ((st.update id { o with refs := o.refs - 1 }).listRemove id) id then
              none
            else
              match vlc_object_destroy
                      ((st.update id { o with refs := o.refs - 1 }).listRemove id) id with
              | none => none
              | some (st3, dev) =>
                match vlc_object_release fuel st3 parent with
                | none => none
                | some (st4, pev) =>
                  some (st4, [Event.releaseCall id, Event.lockTree,
                              Event.decRefs id, Event.listRemove id,
                              Event.unlockTree, Event.lockTree,
                              Event.unlockTree] ++ dev ++ pev)

/-- `vlc_custom_create st parent typename newId`: allocates a fresh object at
address `newId` (`none` models allocation failure, including an address that
is already live).  The counter starts at 1.  With a parent: the logger and
`no_interact` flag are copied from the parent, a reference is taken on the
parent (`priv->parent = vlc_object_hold(parent)`), and the object is
appended to `tree_list` under `tree_lock`.  Without a parent: `no_interact`
is set to `false` and the two debug command variables `tree` and `vars` are
created with their callbacks `TreeCommand` and `VarsCommand`. -/
def vlc_custom_create (st : SysState) (parent : Option Nat) (tyname : String)
    (newId : Nat) : Option (SysState × Nat × List Event) :=
  if (st.find newId).isSome then none
  else
    let base : Obj :=
      { typename := tyname, refs := 1, parent := none, resources := false,
        hasDestructor := false, noInteract := false, force := false,
        logger := 0, vars := [], callbacks := [] }
    match parent with
    | some p =>
      match st.find p with
      | none => none
      | some po =>
        match vlc_object_hold st p with
        | none => none
        | some (st1, _) =>
          let o := { base with
                     logger := po.logger,
                     noInteract := po.noInteract,
                     parent := some p }
          let st2 : SysState := { st1 with objs := st1.objs ++ [(newId, o)] }
          some (st2.listAppend newId, newId,
                [Event.holdCall p, Event.lockTree, Event.listAppend newId,
                 Event.unlockTree])
    | none =>
      let o := { base with
                 noInteract := false,
                 parent := none,
                 vars := ["tree", "vars"],
                 callbacks := [("tree", "TreeCommand"), ("vars", "VarsCommand")] }
      some ({ st with objs := st.objs ++ [(newId, o)] }, newId,
            [Event.varCreate newId "tree", Event.addCallback newId "tree",
             Event.varCreate newId "vars", Event.addCallback newId "vars"])

/-- The loop body of `vlc_list_children`: walk the children sequence; while
`count < max`, hold the child and store it in the output table; always
increment `count`. -/
def listChildrenLoop : SysState → List Nat → Nat → Nat →
    Option (SysState × List Nat × Nat × List Event)
  | st, [], count, _ => some (st, [], count, [])
  | st, c :: rest, count, max =>
    if count < max then
      match vlc_object_hold st c with
      | none => none
      | some (st1, h) =>
        match listChildrenLoop st1 rest (count + 1) max with
        | none => none
        | some (st2, tab, total, ev) =>
          some (st2, h :: tab, total, Event.holdCall c :: ev)
    else
      match listChildrenLoop st rest (count + 1) max with
      | none => none
      | some (st2, tab, total, ev) => some (st2, tab, total, ev)

/-- `vlc_list_children`: under `tree_lock`, fills the table with held
references to at most `max` children and returns the total number of
children (which may exceed `max`). -/
def vlc_list_children (st : SysState) (obj : Nat) (max : Nat) :
    Option (SysState × List Nat × Nat × List Event) :=
  match listChildrenLoop st (childrenOf st obj) 0 max with
  | none => none
  | some (st1, tab, count, ev) =>
    some (st1, tab, count, Event.lockTree :: (ev ++ [Event.unlockTree]))

/-- The recursive search of `ObjectExists` merged with its
`vlc_children_foreach` loop: process a worklist of subtree roots left to
right; a root equal to the candidate is held and returned; otherwise its
children are searched recursively before the remaining roots.  The fuel
bounds the recursion depth (`none` on exhaustion); the hold's `none`
(candidate counter already zero) also propagates. -/
def ObjectExistsFrom : Nat → SysState → List Nat → Nat →
    Option (SysState × Option Nat)
  | _, st, [], _ => some (st, none)
  | 0, _, _ :: _, _ => none
  | fuel + 1, st, root :: rest, cand =>
    if root = cand then
      match vlc_object_hold st root with
      | none => none
      | some (st1, h) => some (st1, some h)
    else
      match ObjectExistsFrom fuel st (childrenOf st root) cand with
      | none => none
      | some (st1, some h) => some (st1, some h)
      | some (st1, none) => ObjectExistsFrom (fuel + 1) st1 rest cand
termination_by fuel _ l _ => (fuel, l.length)

/-- `ObjectExists root cand`: called with `tree_lock` held; returns a held
reference to `cand` if `cand` denotes a live member of the tree rooted at
`root`, and no match otherwise. -/
def ObjectExists (fuel : Nat) (st : SysState) (root cand : Nat) :
    Option (SysState × Option Nat) :=
  ObjectExistsFrom fuel st [root] cand

/-- Membership of `cand` in the tree rooted at `root`, to depth `fuel`:
the reference predicate "the candidate pointer denotes a live member of the
tree rooted at `root`" from the specification of the pointer validator. -/
def inTreeB : Nat → SysState → Nat → Nat → Bool
  | 0, _, _, _ => false
  | fuel + 1, st, root, cand =>
    root == cand || (childrenOf st root).any (fun c => inTreeB fuel st c cand)

/-- The whole tree rooted at `root` has height below `fuel` (every branch is
exhausted within `fuel` levels); this is the fuel adequacy condition for the
recursive walk over that tree. -/
def treeHeightLe : Nat → SysState → Nat → Bool
  | 0, _, _ => false
  | fuel + 1, st, root =>
    (childrenOf st root).all (fun c => treeHeightLe fuel st c)

/-- The outcome of a completed search for `cand`: a held reference when
found, no match (and an unchanged state) when not. -/
def searchResult (st : SysState) (found : Bool) (cand : Nat) :
    Option (SysState × Option Nat) :=
  if found then
    match vlc_object_hold st cand with
    | none => none
    | some (st1, h) => some (st1, some h)
  else some (st, none)

/-- Modelled from the spec: the status codes `VLC_SUCCESS` and `VLC_ENOOBJ`
come from a header that is not part of the provided sources; the spec only
requires that the "no such object" status be distinct from success. -/
def VLC_SUCCESS : Int := 0

/-- Modelled from the spec: the distinct "no such object" error status
returned by the `vars` command when the pointer does not resolve. -/
def VLC_ENOOBJ : Int := -5

/-- `VarsCommand st obj newval`: the `vars` debug command.  `newval` is the
result of `sscanf(newval.psz_string, "%p", &p)`: `some p` when the argument
parses as a pointer, `none` otherwise.  A parsed pointer is validated by
`ObjectExists` under `tree_lock`; on failure an error is logged and the
distinct `VLC_ENOOBJ` status returned.  Otherwise (or with no pointer, after
holding `obj` itself) the object is printed, its variables dumped, the held
reference released, and `VLC_SUCCESS` returned. -/
def VarsCommand (fuel : Nat) (st : SysState) (obj : Nat) (newval : Option Nat) :
    Option (SysState × Int × List Event) :=
  match newval with
  | some p =>
    match ObjectExists fuel st obj p with
    | none => none
    | some (st1, none) =>
      some (st1, VLC_ENOOBJ, [Event.lockTree, Event.unlockTree, Event.msgErr obj])
    | some (st1, some q) =>
      match vlc_object_release fuel st1 q with
      | none => none
      | some (st2, rev) =>
        some (st2, VLC_SUCCESS,
              [Event.lockTree, Event.unlockTree, Event.printObj q,
               Event.dumpVars q] ++ rev)
  | none =>
    match vlc_object_hold st obj with
    | none => none
    | some (st1, h) =>
      match vlc_object_release fuel st1 h with
      | none => none
      | some (st2, rev) =>
        some (st2, VLC_SUCCESS,
              [Event.holdCall obj, Event.printObj h, Event.dumpVars h] ++ rev)

/-- Concrete fixture: the root object of a small runtime, as built by
`vlc_custom_create` with no parent (the two debug command variables are
registered on it). -/
def wRoot : Obj :=
  { typename := "libvlc", refs := 1, parent := none, resources := false,
    hasDestructor := false, noInteract := false, force := false, logger := 0,
    vars := ["tree", "vars"],
    callbacks := [("tree", "TreeCommand"), ("vars", "VarsCommand")] }

/-- Concrete fixture: a plain child object attached to the root `0`. -/
def wChild : Obj :=
  { typename := "generic", refs := 1, parent := some 0, resources := false,
    hasDestructor := false, noInteract := false, force := false, logger := 0,
    vars := [], callbacks := [] }

/-- Concrete fixture: root `0` with a single child `1`. -/
def wSt1 : SysState := { objs := [(0, wRoot), (1, wChild)], treeList := [1] }

/-- Concrete fixture: root `0` with two children `1` and `2`. -/
def wSt2 : SysState :=
  { objs := [(0, wRoot), (1, wChild), (2, wChild)], treeList := [1, 2] }

/-- Concrete fixture: a lone root object `0` holding three references. -/
def wStHold : SysState :=
  { objs := [(0, { wRoot with refs := 3 })], treeList := [] }

/-- Concrete fixture: a lone root object `0` with a single reference. -/
def wStRoot : SysState := { objs := [(0, wRoot)], treeList := [] }

/-- Concrete fixture: the empty runtime, before any object exists. -/
def wStEmpty : SysState := { objs := [], treeList := [] }

/-! Basic facts about the state accessors. -/

theorem find?_map_update (l : List (Nat × Obj)) (id x : Nat) (o : Obj)
    (h : x ≠ id) :
    (l.map (fun p => if p.fst == id then (id, o) else p)).find?
        (fun p => p.fst == x) =
      l.find? (fun p => p.fst == x) := by
  induction l with
  | nil => rfl
  | cons hd rest ih =>
    rcases hd with ⟨k, w⟩
    by_cases hk : k = id
    · subst hk
      have hb : (k == x) = false := by
        simp only [beq_eq_false_iff_ne, ne_eq]
        exact fun e => h e.symm
      simp only [List.map_cons, beq_self_eq_true, if_true, List.find?_cons, hb]
      exact ih
    · have hni : (k == id) = false := by
        simp only [beq_eq_false_iff_ne, ne_eq]
        exact hk
      by_cases hkx : k = x
      · subst hkx
        simp only [List.map_cons, hni, Bool.false_eq_true, if_false,
          List.find?_cons, beq_self_eq_true]
      · have hb : (k == x) = false := by
          simp only [beq_eq_false_iff_ne, ne_eq]
          exact hkx
        simp only [List.map_cons, hni, Bool.false_eq_true, if_false,
          List.find?_cons, hb]
        exact ih

theorem find_update_ne (st : SysState) (id x : Nat) (o : Obj) (h : x ≠ id) :
    (st.update id o).find x = st.find x := by
  rcases st with ⟨objs, tl⟩
  simp only [SysState.find, SysState.update]
  rw [find?_map_update _ _ _ _ h]

theorem find_update_self (st : SysState) (id : Nat) (o v : Obj)
    (h : st.find id = some v) : (st.update id o).find id = some o := by
  rcases st with ⟨objs, tl⟩
  simp only [SysState.find, SysState.update] at h ⊢
  induction objs with
  | nil => simp at h
  | cons hd rest ih =>
    rcases hd with ⟨k, w⟩
    by_cases hk : k = id
    · subst hk
      simp only [List.map_cons, beq_self_eq_true, if_true, List.find?_cons]
      rfl
    · have hni : (k == id) = false := by
        simp only [beq_eq_false_iff_ne, ne_eq]
        exact hk
      simp only [List.map_cons, hni, Bool.false_eq_true, if_false,
        List.find?_cons] at h ⊢
      exact ih h

theorem update_of_find_none (st : SysState) (i : Nat) (o : Obj)
    (h : st.find i = none) : st.update i o = st := by
  rcases st with ⟨objs, tl⟩
  simp only [SysState.find] at h
  simp only [SysState.update, SysState.mk.injEq, and_true]
  induction objs with
  | nil => rfl
  | cons hd rest ih =>
    rcases hd with ⟨k, w⟩
    by_cases hk : k = i
    · subst hk
      simp [List.find?_cons] at h
    · have hni : (k == i) = false := by
        simp only [beq_eq_false_iff_ne, ne_eq]
        exact hk
      simp only [List.find?_cons, hni] at h
      simp only [List.map_cons, hni, Bool.false_eq_true, if_false,
        List.cons.injEq, true_and]
      exact ih h

theorem treeList_update (st : SysState) (id : Nat) (o : Obj) :
    (st.update id o).treeList = st.treeList := rfl

theorem find_removeObj_self (st : SysState) (i : Nat) :
    (st.removeObj i).find i = none := by
  rcases st with ⟨objs, tl⟩
  simp only [SysState.find, SysState.removeObj]
  induction objs with
  | nil => rfl
  | cons hd rest ih =>
    rcases hd with ⟨k, w⟩
    by_cases hk : k = i
    · subst hk
      have h1 : (k != k) = false := by simp
      simp only [List.filter_cons, h1, Bool.false_eq_true, if_false]
      exact ih
    · have h1 : (k != i) = true := by
        simp only [bne_iff_ne, ne_eq]
        exact hk
      have h2 : (k == i) = false := by
        simp only [beq_eq_false_iff_ne, ne_eq]
        exact hk
      simp only [List.filter_cons, h1, if_true, List.find?_cons, h2]
      exact ih

theorem find_removeObj_ne (st : SysState) (id x : Nat) (h : x ≠ id) :
    (st.removeObj id).find x = st.find x := by
  rcases st with ⟨objs, tl⟩
  simp only [SysState.find, SysState.removeObj]
  congr 1
  induction objs with
  | nil => rfl
  | cons hd rest ih =>
    rcases hd with ⟨k, w⟩
    by_cases hk : k = id
    · subst hk
      have h1 : (k != k) = false := by simp
      have h2 : (k == x) = false := by
        simp only [beq_eq_false_iff_ne, ne_eq]
        exact fun e => h e.symm
      simp only [List.filter_cons, h1, Bool.false_eq_true, if_false,
        List.find?_cons, h2]
      exact ih
    · have h1 : (k != id) = true := by
        simp only [bne_iff_ne, ne_eq]
        exact hk
      by_cases hkx : k = x
      · subst hkx
        simp only [List.filter_cons, h1, if_true, List.find?_cons,
          beq_self_eq_true]
      · have h2 : (k == x) = false := by
          simp only [beq_eq_false_iff_ne, ne_eq]
          exact hkx
        simp only [List.filter_cons, h1, if_true, List.find?_cons, h2]
        exact ih

theorem treeList_removeObj (st : SysState) (id : Nat) :
    (st.removeObj id).treeList = st.treeList := rfl

theorem find_listRemove (st : SysState) (id x : Nat) :
    (st.listRemove id).find x = st.find x := rfl

theorem treeList_listRemove (st : SysState) (id : Nat) :
    (st.listRemove id).treeList = st.treeList.erase id := rfl

theorem find_update_of_self (st : SysState) (id : Nat) (o : Obj)
    (h : st.find id = some o) (x : Nat) :
    (st.update id o).find x = st.find x := by
  by_cases hx : x = id
  · subst hx
    rw [find_update_self st x o o h, h]
  · exact find_update_ne st id x o hx

theorem update_update (st : SysState) (i : Nat) (a b : Obj) :
    (st.update i a).update i b = st.update i b := by
  rcases st with ⟨objs, tl⟩
  simp only [SysState.update, SysState.mk.injEq, and_true, List.map_map]
  refine List.map_congr_left ?_
  intro q _
  by_cases hqi : q.fst = i
  · simp [Function.comp, hqi]
  · have hb : (q.fst == i) = false := by
      simp only [beq_eq_false_iff_ne, ne_eq]
      exact hqi
    simp [Function.comp, hb]

/-! Execution lemmas: one per path through the reference counter. -/

theorem hold_eq_some (st : SysState) (i : Nat) (o : Obj)
    (hfind : st.find i = some o) (h : o.refs ≠ 0) :
    vlc_object_hold st i =
      some (st.update i { o with refs := o.refs + 1 }, i) := by
  simp [vlc_object_hold, hfind, h]

theorem hold_eq_none (st : SysState) (i : Nat) (o : Obj)
    (hfind : st.find i = some o) (h : o.refs = 0) :
    vlc_object_hold st i = none := by
  simp [vlc_object_hold, hfind, h]

theorem destroy_eq_some (st : SysState) (i : Nat) (o : Obj)
    (hfind : st.find i = some o) (hres : o.resources = false) :
    vlc_object_destroy st i = some (st.removeObj i, destroyTrace i o) := by
  simp [vlc_object_destroy, hfind, hres]

theorem destroy_eq_none_of_resources (st : SysState) (i : Nat) (o : Obj)
    (hfind : st.find i = some o) (hres : o.resources = true) :
    vlc_object_destroy st i = none := by
  simp [vlc_object_destroy, hfind, hres]

theorem destroy_eq_none_of_dead (st : SysState) (i : Nat)
    (hfind : st.find i = none) : vlc_object_destroy st i = none := by
  simp [vlc_object_destroy, hfind]

theorem release_fast_eq (fuel : Nat) (st : SysState) (i : Nat) (o : Obj)
    (hfind : st.find i = some o) (h : 1 < o.refs) :
    vlc_object_release (fuel + 1) st i =
      some (st.update i { o with refs := o.refs - 1 },
            [Event.releaseCall i, Event.decRefs i]) := by
  simp [vlc_object_release, hfind, h]

theorem release_root_eq (fuel : Nat) (st : SysState) (i : Nat) (o : Obj)
    (hfind : st.find i = some o) (hpar : o.parent = none) (h1 : o.refs = 1)
    (hres : o.resources = false)
    (hnc : ObjectHasChildLocked (st.update i { o with refs := 0 }) i = false) :
    vlc_object_release (fuel + 1) st i =
      some ((st.update i { o with refs := 0 }).removeObj i,
            [Event.releaseCall i, Event.decRefs i, Event.lockTree,
             Event.unlockTree] ++ destroyTrace i { o with refs := 0 }) := by
  have hfind2 : (st.update i { o with refs := 0 }).find i =
      some { o with refs := 0 } := find_update_self st i _ o hfind
  have hdes := destroy_eq_some (st.update i { o with refs := 0 }) i
    { o with refs := 0 } hfind2 (by simpa using hres)
  simp only [hpar] at hnc hdes
  simp [vlc_object_release, hfind, hpar, h1, hnc, hdes]

theorem release_root_eq_none_of_zero (fuel : Nat) (st : SysState) (i : Nat)
    (o : Obj) (hfind : st.find i = some o) (hpar : o.parent = none)
    (h0 : o.refs = 0) : vlc_object_release (fuel + 1) st i = none := by
  simp [vlc_object_release, hfind, hpar, h0]

theorem release_root_eq_none_of_child (fuel : Nat) (st : SysState) (i : Nat)
    (o : Obj) (hfind : st.find i = some o) (hpar : o.parent = none)
    (h1 : o.refs = 1)
    (hc : ObjectHasChildLocked (st.update i { o with refs := 0 }) i = true) :
    vlc_object_release (fuel + 1) st i = none := by
  simp only [hpar] at hc
  simp [vlc_object_release, hfind, hpar, h1, hc]

theorem release_slow_eq (fuel : Nat) (st : SysState) (i : Nat) (o : Obj)
    (p : Nat) (hfind : st.find i = some o) (hpar : o.parent = some p)
    (h1 : o.refs = 1) (hres : o.resources = false)
    (hnc : ObjectHasChildLocked
        ((st.update i { o with refs := 0 }).listRemove i) i = false) :
    vlc_object_release (fuel + 1) st i =
      (match vlc_object_release fuel
          (((st.update i { o with refs := 0 }).listRemove i).removeObj i) p with
       | none => none
       | some (st4, pev) =>
         some (st4, [Event.releaseCall i, Event.lockTree, Event.decRefs i,
                     Event.listRemove i, Event.unlockTree, Event.lockTree,
                     Event.unlockTree] ++
                    destroyTrace i { o with refs := 0 } ++ pev)) := by
  have hfind2 : ((st.update i { o with refs := 0 }).listRemove i).find i =
      some { o with refs := 0 } := by
    rw [find_listRemove, find_update_self st i _ o hfind]
  have hdes := destroy_eq_some ((st.update i { o with refs := 0 }).listRemove i)
    i { o with refs := 0 } hfind2 (by simpa using hres)
  simp only [hpar] at hnc hdes
  simp [vlc_object_release, hfind, hpar, h1, hnc, hdes]

theorem release_slow_eq_none_of_zero (fuel : Nat) (st : SysState) (i : Nat)
    (o : Obj) (p : Nat) (hfind : st.find i = some o)
    (hpar : o.parent = some p) (h0 : o.refs = 0) :
    vlc_object_release (fuel + 1) st i = none := by
  simp [vlc_object_release, hfind, hpar, h0]

theorem release_slow_eq_none_of_child (fuel : Nat) (st : SysState) (i : Nat)
    (o : Obj) (p : Nat) (hfind : st.find i = some o)
    (hpar : o.parent = some p) (h1 : o.refs = 1)
    (hc : ObjectHasChildLocked
        ((st.update i { o with refs := 0 }).listRemove i) i = true) :
    vlc_object_release (fuel + 1) st i = none := by
  simp only [hpar] at hc
  simp [vlc_object_release, hfind, hpar, h1, hc]

/-! The destruction steps contain no lock, collection or release events. -/

theorem lockTree_not_mem_destroyTrace (i : Nat) (o : Obj) :
    Event.lockTree ∉ destroyTrace i o := by
  cases h1 : o.hasDestructor <;> cases h2 : o.parent <;>
    simp [destroyTrace, h1, h2]

theorem listRemove_not_mem_destroyTrace (i j : Nat) (o : Obj) :
    Event.listRemove j ∉ destroyTrace i o := by
  cases h1 : o.hasDestructor <;> cases h2 : o.parent <;>
    simp [destroyTrace, h1, h2]

theorem listAppend_not_mem_destroyTrace (i j : Nat) (o : Obj) :
    Event.listAppend j ∉ destroyTrace i o := by
  cases h1 : o.hasDestructor <;> cases h2 : o.parent <;>
    simp [destroyTrace, h1, h2]

theorem releaseCall_not_mem_destroyTrace (i j : Nat) (o : Obj) :
    Event.releaseCall j ∉ destroyTrace i o := by
  cases h1 : o.hasDestructor <;> cases h2 : o.parent <;>
    simp [destroyTrace, h1, h2]

/-! Characterization of the recursive search of `ObjectExists`. -/

theorem childrenOf_mem (st : SysState) (p c : Nat) (h : c ∈ childrenOf st p) :
    ∃ o, st.find c = some o ∧ o.parent = some p := by
  have h2 := (List.mem_filter.mp h).2
  simp only [isChildOf] at h2
  cases hf : st.find c with
  | none => rw [hf] at h2; simp at h2
  | some o =>
    rw [hf] at h2
    refine ⟨o, rfl, ?_⟩
    simpa using h2

theorem inTreeB_eq_false_of_dead (st : SysState) (cand : Nat)
    (hdead : st.find cand = none) :
    ∀ (fuel : Nat) (root : Nat), root ≠ cand →
      inTreeB fuel st root cand = false := by
  intro fuel
  induction fuel with
  | zero => intro root _; simp [inTreeB]
  | succ f ih =>
    intro root hne
    have hrc : (root == cand) = false := by
      simp only [beq_eq_false_iff_ne, ne_eq]
      exact hne
    simp only [inTreeB, hrc, Bool.false_or]
    rw [List.any_eq_false]
    intro c hc
    by_cases hcc : c = cand
    · subst hcc
      obtain ⟨o, ho, -⟩ := childrenOf_mem st root c hc
      rw [ho] at hdead
      exact absurd hdead (by simp)
    · simp [ih c hcc]

theorem objectExistsFrom_eq (cand : Nat) :
    ∀ (fuel : Nat) (l : List Nat) (st : SysState),
      (∀ r ∈ l, treeHeightLe fuel st r = true) →
      ObjectExistsFrom fuel st l cand =
        searchResult st (l.any (fun r => inTreeB fuel st r cand)) cand := by
  intro fuel
  induction fuel with
  | zero =>
    intro l st h
    cases l with
    | nil => simp [ObjectExistsFrom, searchResult]
    | cons r rest =>
      have := h r (by simp)
      simp [treeHeightLe] at this
  | succ f ih =>
    intro l st
    induction l with
    | nil =>
      intro _
      simp [ObjectExistsFrom, searchResult]
    | cons root rest ihl =>
      intro h
      have hroot : treeHeightLe (f + 1) st root = true := h root (by simp)
      have hrest : ∀ r ∈ rest, treeHeightLe (f + 1) st r = true := by
        intro r hr
        exact h r (by simp [hr])
      have hchild : ∀ c ∈ childrenOf st root, treeHeightLe f st c = true := by
        intro c hc
        simp only [treeHeightLe, List.all_eq_true] at hroot
        exact hroot c hc
      by_cases hrc : root = cand
      · subst hrc
        have hany : (root :: rest).any (fun r => inTreeB (f + 1) st r root) = true := by
          simp [inTreeB]
        rw [hany]
        simp only [ObjectExistsFrom, if_pos rfl, searchResult, if_true]
      · have hinner := ih (childrenOf st root) st hchild
        have hrc' : (root == cand) = false := by
          simp only [beq_eq_false_iff_ne, ne_eq]
          exact hrc
        cases hcb : (childrenOf st root).any (fun c => inTreeB f st c cand) with
        | true =>
          have hroot' : inTreeB (f + 1) st root cand = true := by
            simp [inTreeB, hrc', hcb]
          have hany : (root :: rest).any (fun r => inTreeB (f + 1) st r cand) = true := by
            simp [List.any_cons, hroot']
          rw [hany]
          rw [hcb] at hinner
          simp only [ObjectExistsFrom, if_neg hrc, hinner, searchResult, if_true]
          cases hh : vlc_object_hold st cand with
          | none => simp
          | some v =>
            rcases v with ⟨st1, hdl⟩
            simp
        | false =>
          have hroot' : inTreeB (f + 1) st root cand = false := by
            simp [inTreeB, hrc', hcb]
          have hany : (root :: rest).any (fun r => inTreeB (f + 1) st r cand) =
              rest.any (fun r => inTreeB (f + 1) st r cand) := by
            simp [List.any_cons, hroot']
          rw [hany]
          rw [hcb] at hinner
          simp only [searchResult, if_false] at hinner
          simp only [ObjectExistsFrom, if_neg hrc, hinner]
          exact ihl hrest

theorem objectExists_eq (fuel : Nat) (st : SysState) (root cand : Nat)
    (h : treeHeightLe fuel st root = true) :
    ObjectExists fuel st root cand =
      searchResult st (inTreeB fuel st root cand) cand := by
  have := objectExistsFrom_eq cand fuel [root] st (by simpa using h)
  simpa [ObjectExists] using this

/-! Execution lemmas for creation and child listing. -/

theorem find_append_single (st : SysState) (k : Nat) (o : Obj) (x : Nat) :
    SysState.find { st with objs := st.objs ++ [(k, o)] } x =
      match st.find x with
      | some v => some v
      | none => if x = k then some o else none := by
  rcases st with ⟨objs, tl⟩
  simp only [SysState.find]
  induction objs with
  | nil =>
    simp only [List.nil_append, List.find?_nil, Option.map_none]
    by_cases hx : x = k
    · subst hx
      simp [List.find?_cons]
    · have hb : (k == x) = false := by
        simp only [beq_eq_false_iff_ne, ne_eq]
        exact fun e => hx e.symm
      simp [List.find?_cons, hb, hx]
  | cons hd rest ih =>
    rcases hd with ⟨j, w⟩
    by_cases hj : j = x
    · subst hj
      simp [List.cons_append, List.find?_cons]
    · have hb : (j == x) = false := by
        simp only [beq_eq_false_iff_ne, ne_eq]
        exact hj
      simp only [List.cons_append, List.find?_cons, hb]
      exact ih

theorem create_root_eq (st : SysState) (ty : String) (newId : Nat)
    (hfresh : st.find newId = none) :
    vlc_custom_create st none ty newId =
      some ({ st with objs := st.objs ++
                [(newId, { typename := ty, refs := 1, parent := none,
                           resources := false, hasDestructor := false,
                           noInteract := false, force := false, logger := 0,
                           vars := ["tree", "vars"],
                           callbacks := [("tree", "TreeCommand"),
                                         ("vars", "VarsCommand")] })] },
            newId,
            [Event.varCreate newId "tree", Event.addCallback newId "tree",
             Event.varCreate newId "vars", Event.addCallback newId "vars"]) := by
  simp [vlc_custom_create, hfresh]

theorem create_with_parent_spec (st : SysState) (p : Nat) (po : Obj)
    (ty : String) (newId : Nat) (hfresh : st.find newId = none)
    (hfind : st.find p = some po) (hrefs : po.refs ≠ 0) :
    ∃ st', vlc_custom_create st (some p) ty newId =
        some (st', newId,
              [Event.holdCall p, Event.lockTree, Event.listAppend newId,
               Event.unlockTree]) ∧
      st'.find newId =
        some { typename := ty, refs := 1, parent := some p,
               resources := false, hasDestructor := false,
               noInteract := po.noInteract, force := false,
               logger := po.logger, vars := [], callbacks := [] } ∧
      st'.find p = some { po with refs := po.refs + 1 } ∧
      (∀ x, x ≠ newId → x ≠ p → st'.find x = st.find x) ∧
      st'.treeList = st.treeList ++ [newId] := by
  have hpn : p ≠ newId := by
    intro e
    rw [e, hfresh] at hfind
    exact absurd hfind (by simp)
  have hhold := hold_eq_some st p po hfind hrefs
  set st1 := st.update p { po with refs := po.refs + 1 } with hst1
  set oNew : Obj :=
    { typename := ty, refs := 1, parent := some p, resources := false,
      hasDestructor := false, noInteract := po.noInteract, force := false,
      logger := po.logger, vars := [], callbacks := [] } with hoNew
  refine ⟨SysState.listAppend { st1 with objs := st1.objs ++ [(newId, oNew)] }
      newId, ?_, ?_, ?_, ?_, ?_⟩
  · simp [vlc_custom_create, hfresh, hfind, hhold, SysState.listAppend]
  · have h1 : st1.find newId = none := by
      rw [hst1, find_update_ne st p newId _ (fun e => hpn e.symm)]
      exact hfresh
    show SysState.find { st1 with objs := st1.objs ++ [(newId, oNew)] } newId = _
    rw [find_append_single st1 newId oNew newId, h1]
    simp
  · have h1 : st1.find p = some { po with refs := po.refs + 1 } :=
      find_update_self st p _ po hfind
    show SysState.find { st1 with objs := st1.objs ++ [(newId, oNew)] } p = _
    rw [find_append_single st1 newId oNew p, h1]
  · intro x hxn hxp
    have h1 : st1.find x = st.find x := find_update_ne st p x _ hxp
    show SysState.find { st1 with objs := st1.objs ++ [(newId, oNew)] } x = _
    rw [find_append_single st1 newId oNew x, h1]
    cases hfx : st.find x with
    | none => simp [hxn]
    | some v => rfl
  · rfl

theorem listChildrenLoop_spec :
    ∀ (cs : List Nat) (st : SysState) (count max : Nat),
      cs.Nodup →
      (∀ c ∈ cs, ∃ o, st.find c = some o ∧ o.refs ≠ 0) →
      ∃ stF, listChildrenLoop st cs count max =
          some (stF, cs.take (max - count), count + cs.length,
                (cs.take (max - count)).map Event.holdCall) ∧
        (∀ c o, c ∈ cs.take (max - count) → st.find c = some o →
           stF.find c = some { o with refs := o.refs + 1 }) ∧
        (∀ x, x ∉ cs.take (max - count) → stF.find x = st.find x) ∧
        stF.treeList = st.treeList := by
  intro cs
  induction cs with
  | nil =>
    intro st count max _ _
    exact ⟨st, by simp [listChildrenLoop], by simp, by simp, rfl⟩
  | cons c rest ih =>
    intro st count max hnd hlive
    obtain ⟨o, ho, horefs⟩ := hlive c (by simp)
    have hndr : rest.Nodup := (List.nodup_cons.mp hnd).2
    have hcr : c ∉ rest := (List.nodup_cons.mp hnd).1
    by_cases hcm : count < max
    · have hhold := hold_eq_some st c o ho horefs
      set st1 := st.update c { o with refs := o.refs + 1 } with hst1
      have hlive1 : ∀ c' ∈ rest, ∃ o', st1.find c' = some o' ∧ o'.refs ≠ 0 := by
        intro c' hc'
        obtain ⟨o', ho', h'⟩ := hlive c' (by simp [hc'])
        refine ⟨o', ?_, h'⟩
        rw [hst1, find_update_ne st c c' _ ?_]
        · exact ho'
        · intro e
          rw [e] at hc'
          exact hcr hc'
      obtain ⟨stF, heq, hin, hout, htl⟩ := ih st1 (count + 1) max hndr hlive1
      have htake : (c :: rest).take (max - count) =
          c :: rest.take (max - (count + 1)) := by
        have h1 : max - count = (max - (count + 1)) + 1 := by omega
        rw [h1, List.take_succ_cons]
      refine ⟨stF, ?_, ?_, ?_, ?_⟩
      · simp only [listChildrenLoop, hcm, if_true, hhold, heq, htake]
        have hlen : count + 1 + rest.length = count + (rest.length + 1) := by omega
        simp [hlen]
      · intro c' o' hmem hfindc'
        rw [htake] at hmem
        rcases List.mem_cons.mp hmem with he | hm
        · have hfc : st.find c = some o' := by
            rw [← he]
            exact hfindc'
          rw [ho] at hfc
          have ho'o : o' = o := (Option.some_inj.mp hfc).symm
          subst ho'o
          have hcn : c ∉ rest.take (max - (count + 1)) := by
            intro hc
            exact hcr (List.mem_of_mem_take hc)
          rw [he, hout c hcn, hst1, find_update_self st c _ o' ho]
        · have hne : c' ≠ c := by
            intro e
            rw [e] at hm
            exact hcr (List.mem_of_mem_take hm)
          have h1 : st1.find c' = some o' := by
            rw [hst1, find_update_ne st c c' _ hne]
            exact hfindc'
          exact hin c' o' hm h1
      · intro x hx
        rw [htake] at hx
        have hxc : x ≠ c := by
          intro e
          exact hx (by simp [e])
        have hxm : x ∉ rest.take (max - (count + 1)) := by
          intro hm
          exact hx (by simp [hm])
        rw [hout x hxm, hst1, find_update_ne st c x _ hxc]
      · rw [htl, hst1]
        rfl
    · have htake0 : max - count = 0 := by omega
      have htake1 : max - (count + 1) = 0 := by omega
      obtain ⟨stF, heq, hin, hout, htl⟩ := ih st (count + 1) max hndr
        (fun c' hc' => hlive c' (by simp [hc']))
      refine ⟨stF, ?_, ?_, ?_, htl⟩
      · simp only [listChildrenLoop, hcm, if_false, heq, htake0, htake1]
        have hlen : count + 1 + rest.length = count + (rest.length + 1) := by omega
        simp [hlen]
      · intro c' o' hmem
        rw [htake0] at hmem
        simp at hmem
      · intro x hx
        have : x ∉ rest.take (max - (count + 1)) := by
          rw [htake1]
          simp
        exact hout x this

/-! The claims. -/

/-- C2: for an object whose observed reference count is above 1, release
decrements the count by exactly one through the compare-and-swap fast path
and returns at once: the trace holds only the entry and the atomic
decrement — no `tree_lock` acquisition, no removal from the global
collection, no destruction — and every other piece of state (the object's
other fields, every other object, and the collection) is unchanged. -/
theorem spec_c2 (fuel : Nat) (st : SysState) (i : Nat) (o : Obj)
    (hfind : st.find i = some o) (hrefs : 1 < o.refs) :
    vlc_object_release (fuel + 1) st i =
      some (st.update i { o with refs := o.refs - 1 },
            [Event.releaseCall i, Event.decRefs i]) ∧
    (st.update i { o with refs := o.refs - 1 }).find i =
      some { o with refs := o.refs - 1 } ∧
    (∀ x, x ≠ i → (st.update i { o with refs := o.refs - 1 }).find x = st.find x) ∧
    (st.update i { o with refs := o.refs - 1 }).treeList = st.treeList ∧
    Event.lockTree ∉ [Event.releaseCall i, Event.decRefs i] ∧
    (∀ j, Event.listRemove j ∉ [Event.releaseCall i, Event.decRefs i]) ∧
    (∀ j, Event.destroy j ∉ [Event.releaseCall i, Event.decRefs i]) := by
  refine ⟨release_fast_eq fuel st i o hfind hrefs,
    find_update_self st i _ o hfind,
    fun x hx => find_update_ne st i x _ hx, rfl, by simp, by simp, by simp⟩

theorem spec_c2_w :
    vlc_object_release 1 wStHold 0 =
      some (wStHold.update 0 { wRoot with refs := 2 },
            [Event.releaseCall 0, Event.decRefs 0]) :=
  (spec_c2 0 wStHold 0 { wRoot with refs := 3 } (by decide) (by decide)).1

/-- C4: on an object whose count is at least 1, `vlc_object_hold` increments
the count by one and returns the very handle it was given; on an object
whose count has already dropped to zero the `assert (refs > 0)` fires — a
fatal, non-recoverable outcome (modelled as `none`). -/
theorem spec_c4 (st : SysState) (i : Nat) (o : Obj)
    (hfind : st.find i = some o) :
    (o.refs ≠ 0 →
      vlc_object_hold st i =
        some (st.update i { o with refs := o.refs + 1 }, i) ∧
      (st.update i { o with refs := o.refs + 1 }).find i =
        some { o with refs := o.refs + 1 }) ∧
    (o.refs = 0 → vlc_object_hold st i = none) := by
  constructor
  · intro h
    exact ⟨hold_eq_some st i o hfind h, find_update_self st i _ o hfind⟩
  · intro h
    exact hold_eq_none st i o hfind h

theorem spec_c4_w :
    vlc_object_hold wSt1 0 = some (wSt1.update 0 { wRoot with refs := 2 }, 0) :=
  ((spec_c4 wSt1 0 wRoot (by decide)).1 (by decide)).1

/-- C5: releasing a parent-less object with a single remaining reference
decrements the count (the trace's first two events, before any `tree_lock`
acquisition), would fail the `assert (refs == 1)` had the count already been
zero, fails the no-children assertion if a child exists, and otherwise
destroys the object; the global collection is never touched: the object was
never in it, the final `treeList` is unchanged, and no collection event
appears in the trace. -/
theorem spec_c5 (fuel : Nat) (st : SysState) (i : Nat) (o : Obj)
    (hfind : st.find i = some o) (hpar : o.parent = none) :
    (o.refs = 1 → o.resources = false →
      ObjectHasChildLocked (st.update i { o with refs := 0 }) i = false →
      vlc_object_release (fuel + 1) st i =
        some ((st.update i { o with refs := 0 }).removeObj i,
              [Event.releaseCall i, Event.decRefs i, Event.lockTree,
               Event.unlockTree] ++ destroyTrace i { o with refs := 0 }) ∧
      ((st.update i { o with refs := 0 }).removeObj i).treeList = st.treeList ∧
      (∀ j, Event.listRemove j ∉
        [Event.releaseCall i, Event.decRefs i, Event.lockTree,
         Event.unlockTree] ++ destroyTrace i { o with refs := 0 }) ∧
      (∀ j, Event.listAppend j ∉
        [Event.releaseCall i, Event.decRefs i, Event.lockTree,
         Event.unlockTree] ++ destroyTrace i { o with refs := 0 }) ∧
      ([Event.releaseCall i, Event.decRefs i, Event.lockTree,
        Event.unlockTree] ++ destroyTrace i { o with refs := 0 }).take 2 =
        [Event.releaseCall i, Event.decRefs i]) ∧
    (o.refs = 0 → vlc_object_release (fuel + 1) st i = none) ∧
    (o.refs = 1 →
      ObjectHasChildLocked (st.update i { o with refs := 0 }) i = true →
      vlc_object_release (fuel + 1) st i = none) := by
  refine ⟨?_, ?_, ?_⟩
  · intro h1 hres hnc
    refine ⟨release_root_eq fuel st i o hfind hpar h1 hres hnc, rfl, ?_, ?_, rfl⟩
    · intro j hmem
      rcases List.mem_append.mp hmem with h | h
      · simp at h
      · exact listRemove_not_mem_destroyTrace i j _ h
    · intro j hmem
      rcases List.mem_append.mp hmem with h | h
      · simp at h
      · exact listAppend_not_mem_destroyTrace i j _ h
  · intro h0
    exact release_root_eq_none_of_zero fuel st i o hfind hpar h0
  · intro h1 hc
    exact release_root_eq_none_of_child fuel st i o hfind hpar h1 hc

theorem spec_c5_w :
    vlc_object_release 1 wStRoot 0 =
      some ((wStRoot.update 0 { wRoot with refs := 0 }).removeObj 0,
            [Event.releaseCall 0, Event.decRefs 0, Event.lockTree,
             Event.unlockTree] ++ destroyTrace 0 { wRoot with refs := 0 }) :=
  ((spec_c5 0 wStRoot 0 wRoot (by decide) (by decide)).1
    (by decide) (by decide) (by decide)).1

/-- C9: destruction of a live object fails the fatal resources assertion if
an attached resource remains, and otherwise performs, in order: the
resources assertion, the custom teardown hook when one is set, for a
parent-less object the deletion of the `vars` and `tree` command callbacks,
the destruction of all variables, the release of the variable condition and
mutex, and the free of the block; afterwards the object is gone from the
live heap, so a second destruction of the same identifier cannot run. -/
theorem spec_c9 (st : SysState) (i : Nat) (o : Obj)
    (hfind : st.find i = some o) :
    (o.resources = true → vlc_object_destroy st i = none) ∧
    (o.resources = false →
      vlc_object_destroy st i =
        some (st.removeObj i,
          [Event.destroy i, Event.assertResources i] ++
          (if o.hasDestructor then [Event.callDestructor i] else []) ++
          (match o.parent with
           | none => [Event.delCallback i "vars", Event.delCallback i "tree"]
           | some _ => []) ++
          [Event.destroyAllVars i, Event.condDestroy i, Event.mutexDestroy i,
           Event.freeObj i]) ∧
      (st.removeObj i).find i = none ∧
      vlc_object_destroy (st.removeObj i) i = none) := by
  constructor
  · intro hres
    exact destroy_eq_none_of_resources st i o hfind hres
  · intro hres
    refine ⟨?_, find_removeObj_self st i, ?_⟩
    · rw [destroy_eq_some st i o hfind hres]
      simp [destroyTrace]
    · exact destroy_eq_none_of_dead _ i (find_removeObj_self st i)

theorem spec_c9_w :
    vlc_object_destroy wStRoot 0 =
      some (wStRoot.removeObj 0,
        [Event.destroy 0, Event.assertResources 0, Event.delCallback 0 "vars",
         Event.delCallback 0 "tree", Event.destroyAllVars 0,
         Event.condDestroy 0, Event.mutexDestroy 0, Event.freeObj 0]) :=
  (((spec_c9 wStRoot 0 wRoot (by decide)).2 (by decide)).1)

/-- C1: for an object with a parent, the release that drops the count to
zero removes the object from the global collection between the `tree_lock`
acquisition and release events, then runs the destruction steps, and
finally performs exactly one release call on the parent (the tail of the
trace is precisely the trace of that single recursive release, and no
release call occurs among the destruction steps); a release that leaves the
count positive performs none of these steps: it takes no lock, removes
nothing, destroys nothing and releases no other object. -/
theorem spec_c1 (fuel : Nat) (st : SysState) (i : Nat) (o : Obj) (p : Nat)
    (hfind : st.find i = some o) (hpar : o.parent = some p) :
    (o.refs = 1 → o.resources = false →
      ObjectHasChildLocked ((st.update i { o with refs := 0 }).listRemove i) i
          = false →
      vlc_object_release (fuel + 1) st i =
        (match vlc_object_release fuel
            (((st.update i { o with refs := 0 }).listRemove i).removeObj i) p with
         | none => none
         | some (st4, pev) =>
           some (st4, [Event.releaseCall i, Event.lockTree, Event.decRefs i,
                       Event.listRemove i, Event.unlockTree, Event.lockTree,
                       Event.unlockTree] ++
                      destroyTrace i { o with refs := 0 } ++ pev)) ∧
      (((st.update i { o with refs := 0 }).listRemove i).removeObj i).treeList =
        st.treeList.erase i ∧
      (((st.update i { o with refs := 0 }).listRemove i).removeObj i).find i =
        none ∧
      (∀ j, Event.releaseCall j ∉ destroyTrace i { o with refs := 0 })) ∧
    (1 < o.refs →
      vlc_object_release (fuel + 1) st i =
        some (st.update i { o with refs := o.refs - 1 },
              [Event.releaseCall i, Event.decRefs i]) ∧
      Event.lockTree ∉ [Event.releaseCall i, Event.decRefs i] ∧
      (∀ j, Event.listRemove j ∉ [Event.releaseCall i, Event.decRefs i]) ∧
      (∀ j, Event.destroy j ∉ [Event.releaseCall i, Event.decRefs i]) ∧
      (∀ j, Event.releaseCall j ∈ [Event.releaseCall i, Event.decRefs i] →
        j = i)) := by
  constructor
  · intro h1 hres hnc
    exact ⟨release_slow_eq fuel st i o p hfind hpar h1 hres hnc, rfl,
      find_removeObj_self _ i, fun j => releaseCall_not_mem_destroyTrace i j _⟩
  · intro hgt
    exact ⟨release_fast_eq fuel st i o hfind hgt, by simp, by simp, by simp,
      by simp⟩

theorem spec_c1_w :
    vlc_object_release 2 wSt1 1 =
      (match vlc_object_release 1
          (((wSt1.update 1 { wChild with refs := 0 }).listRemove 1).removeObj 1)
          0 with
       | none => none
       | some (st4, pev) =>
         some (st4, [Event.releaseCall 1, Event.lockTree, Event.decRefs 1,
                     Event.listRemove 1, Event.unlockTree, Event.lockTree,
                     Event.unlockTree] ++
                    destroyTrace 1 { wChild with refs := 0 } ++ pev)) :=
  ((spec_c1 1 wSt1 1 wChild 0 (by decide) (by decide)).1
    (by decide) (by decide) (by decide)).1

/-- C3: (i) creating an object under a parent takes exactly one reference
on the parent (its count rises by one and the child records the parent);
(ii) when the child's last reference is released, the parent's entry is
still untouched after the child's removal and destruction, no release call
occurs among the destruction steps, and the trace ends with exactly the
trace of the single recursive release performed on the parent — the
reference is given back only after the child's destruction completes;
(iii) a release that would destroy an object that still has a child (so its
count would reach zero while a child exists) instead fails the fatal
no-children assertion, on the root path and on the parented path alike. -/
theorem spec_c3 (st : SysState) :
    (∀ p po ty newId, st.find newId = none → st.find p = some po →
      po.refs ≠ 0 →
      ∃ st', vlc_custom_create st (some p) ty newId =
          some (st', newId, [Event.holdCall p, Event.lockTree,
                             Event.listAppend newId, Event.unlockTree]) ∧
        st'.find p = some { po with refs := po.refs + 1 } ∧
        st'.find newId =
          some { typename := ty, refs := 1, parent := some p,
                 resources := false, hasDestructor := false,
                 noInteract := po.noInteract, force := false,
                 logger := po.logger, vars := [], callbacks := [] }) ∧
    (∀ fuel i o p, st.find i = some o → o.parent = some p → p ≠ i →
      o.refs = 1 → o.resources = false →
      ObjectHasChildLocked ((st.update i { o with refs := 0 }).listRemove i) i
          = false →
      (((st.update i { o with refs := 0 }).listRemove i).removeObj i).find p =
        st.find p ∧
      (∀ j, Event.releaseCall j ∉ destroyTrace i { o with refs := 0 }) ∧
      vlc_object_release (fuel + 1) st i =
        (match vlc_object_release fuel
            (((st.update i { o with refs := 0 }).listRemove i).removeObj i) p with
         | none => none
         | some (st4, pev) =>
           some (st4, [Event.releaseCall i, Event.lockTree, Event.decRefs i,
                       Event.listRemove i, Event.unlockTree, Event.lockTree,
                       Event.unlockTree] ++
                      destroyTrace i { o with refs := 0 } ++ pev))) ∧
    (∀ fuel i o, st.find i = some o → o.refs = 1 →
      (o.parent = none →
        ObjectHasChildLocked (st.update i { o with refs := 0 }) i = true →
        vlc_object_release (fuel + 1) st i = none) ∧
      (∀ p, o.parent = some p →
        ObjectHasChildLocked ((st.update i { o with refs := 0 }).listRemove i) i
            = true →
        vlc_object_release (fuel + 1) st i = none)) := by
  refine ⟨?_, ?_, ?_⟩
  · intro p po ty newId hfresh hfind hrefs
    obtain ⟨st', heq, hnew, hp, -, -⟩ :=
      create_with_parent_spec st p po ty newId hfresh hfind hrefs
    exact ⟨st', heq, hp, hnew⟩
  · intro fuel i o p hfind hpar hpi h1 hres hnc
    refine ⟨?_, fun j => releaseCall_not_mem_destroyTrace i j _,
      release_slow_eq fuel st i o p hfind hpar h1 hres hnc⟩
    rw [find_removeObj_ne _ i p hpi, find_listRemove,
      find_update_ne st i p _ hpi]
  · intro fuel i o hfind h1
    constructor
    · intro hpar hc
      exact release_root_eq_none_of_child fuel st i o hfind hpar h1 hc
    · intro p hpar hc
      exact release_slow_eq_none_of_child fuel st i o p hfind hpar h1 hc

theorem spec_c3_w :
    (∃ st', vlc_custom_create wSt1 (some 0) "playlist" 5 =
        some (st', 5, [Event.holdCall 0, Event.lockTree, Event.listAppend 5,
                       Event.unlockTree]) ∧
      st'.find 0 = some { wRoot with refs := 2 } ∧
      st'.find 5 =
        some { typename := "playlist", refs := 1, parent := some 0,
               resources := false, hasDestructor := false, noInteract := false,
               force := false, logger := 0, vars := [], callbacks := [] }) ∧
    ((((wSt1.update 1 { wChild with refs := 0 }).listRemove 1).removeObj 1).find
        0 = wSt1.find 0 ∧
      (∀ j, Event.releaseCall j ∉ destroyTrace 1 { wChild with refs := 0 }) ∧
      vlc_object_release 2 wSt1 1 =
        (match vlc_object_release 1
            (((wSt1.update 1 { wChild with refs := 0 }).listRemove 1).removeObj
              1) 0 with
         | none => none
         | some (st4, pev) =>
           some (st4, [Event.releaseCall 1, Event.lockTree, Event.decRefs 1,
                       Event.listRemove 1, Event.unlockTree, Event.lockTree,
                       Event.unlockTree] ++
                      destroyTrace 1 { wChild with refs := 0 } ++ pev))) ∧
    vlc_object_release 1 wSt1 0 = none :=
  ⟨(spec_c3 wSt1).1 0 wRoot "playlist" 5 (by decide) (by decide) (by decide),
   (spec_c3 wSt1).2.1 1 1 wChild 0 (by decide) (by decide) (by decide)
     (by decide) (by decide) (by decide),
   ((spec_c3 wSt1).2.2 0 0 wRoot (by decide) (by decide)).1 (by decide)
     (by decide)⟩

/-- C7 (counterexample): creating an object with a null parent does NOT mark
it as non-interactive — the code sets the interaction-suppression flag
`no_interact` to `false`, leaving the root interactive.  Evaluated on the
empty runtime at address 0. -/
theorem spec_c7_cex :
    ((vlc_custom_create wStEmpty none "libvlc" 0).bind
        (fun r => r.1.find 0)).map Obj.noInteract = some false := by
  decide

/-- C7 (amended): creating an object with a null parent sets the
interaction-suppression flag to `false` (the object stays interactive) and
registers the two debug command variables `tree` and `vars` with their
callbacks at construction time; creating an object under a parent inherits
the parent's flag and registers no command variables. -/
theorem spec_c7 (st : SysState) (ty : String) (newId : Nat) :
    (st.find newId = none →
      ∃ st', vlc_custom_create st none ty newId =
          some (st', newId,
                [Event.varCreate newId "tree", Event.addCallback newId "tree",
                 Event.varCreate newId "vars", Event.addCallback newId "vars"]) ∧
        st'.find newId =
          some { typename := ty, refs := 1, parent := none, resources := false,
                 hasDestructor := false, noInteract := false, force := false,
                 logger := 0, vars := ["tree", "vars"],
                 callbacks := [("tree", "TreeCommand"),
                               ("vars", "VarsCommand")] } ∧
        st'.treeList = st.treeList) ∧
    (∀ p po, st.find newId = none → st.find p = some po → po.refs ≠ 0 →
      ∃ st', vlc_custom_create st (some p) ty newId =
          some (st', newId, [Event.holdCall p, Event.lockTree,
                             Event.listAppend newId, Event.unlockTree]) ∧
        st'.find newId =
          some { typename := ty, refs := 1, parent := some p,
                 resources := false, hasDestructor := false,
                 noInteract := po.noInteract, force := false,
                 logger := po.logger, vars := [], callbacks := [] }) := by
  constructor
  · intro hfresh
    refine ⟨_, create_root_eq st ty newId hfresh, ?_, rfl⟩
    have h := find_append_single st newId
      { typename := ty, refs := 1, parent := none, resources := false,
        hasDestructor := false, noInteract := false, force := false,
        logger := 0, vars := ["tree", "vars"],
        callbacks := [("tree", "TreeCommand"), ("vars", "VarsCommand")] } newId
    rw [hfresh] at h
    simpa using h
  · intro p po hfresh hfind hrefs
    obtain ⟨st', heq, hnew, -, -, -⟩ :=
      create_with_parent_spec st p po ty newId hfresh hfind hrefs
    exact ⟨st', heq, hnew⟩

theorem spec_c7_w :
    (∃ st', vlc_custom_create wStEmpty none "libvlc" 0 =
        some (st', 0,
              [Event.varCreate 0 "tree", Event.addCallback 0 "tree",
               Event.varCreate 0 "vars", Event.addCallback 0 "vars"]) ∧
      st'.find 0 =
        some { typename := "libvlc", refs := 1, parent := none,
               resources := false, hasDestructor := false, noInteract := false,
               force := false, logger := 0, vars := ["tree", "vars"],
               callbacks := [("tree", "TreeCommand"),
                             ("vars", "VarsCommand")] } ∧
      st'.treeList = wStEmpty.treeList) ∧
    (∃ st', vlc_custom_create wSt1 (some 1) "stream" 5 =
        some (st', 5, [Event.holdCall 1, Event.lockTree, Event.listAppend 5,
                       Event.unlockTree]) ∧
      st'.find 5 =
        some { typename := "stream", refs := 1, parent := some 1,
               resources := false, hasDestructor := false, noInteract := false,
               force := false, logger := 0, vars := [], callbacks := [] }) :=
  ⟨(spec_c7 wStEmpty "libvlc" 0).1 (by decide),
   (spec_c7 wSt1 "stream" 5).2 1 wChild (by decide) (by decide) (by decide)⟩

/-- C8 (counterexample): with two children and a table limit of 1,
`vlc_list_children` returns the true count 2, but the second matched child
keeps a reference count of 1 — no reference is held on a matched child that
does not fit in the table, refuting "holds a reference on each matched
child". -/
theorem spec_c8_cex :
    2 ∈ childrenOf wSt2 0 ∧
    (vlc_list_children wSt2 0 1).map
        (fun r => (r.2.2.1, (r.1.find 2).map Obj.refs)) = some (2, some 1) ∧
    (wSt2.find 2).map Obj.refs = some 1 := by
  decide

/-- C8 (amended): under the structural lock, `vlc_list_children` stores the
first `max` children in the table and holds a reference on each stored
child before the lock is released (the hold events precede the unlock event
in the trace); children beyond the limit are counted but not held; the
returned count is the true number of children even when it exceeds the
limit, and the table receives at most `max` entries. -/
theorem spec_c8 (st : SysState) (obj max : Nat)
    (hnd : (childrenOf st obj).Nodup)
    (hlive : ∀ c ∈ childrenOf st obj, ∃ o, st.find c = some o ∧ o.refs ≠ 0) :
    ∃ stF, vlc_list_children st obj max =
        some (stF, (childrenOf st obj).take max, (childrenOf st obj).length,
              Event.lockTree ::
                (((childrenOf st obj).take max).map Event.holdCall ++
                 [Event.unlockTree])) ∧
      ((childrenOf st obj).take max).length ≤ max ∧
      (∀ c o, c ∈ (childrenOf st obj).take max → st.find c = some o →
        stF.find c = some { o with refs := o.refs + 1 }) ∧
      (∀ x, x ∉ (childrenOf st obj).take max → stF.find x = st.find x) ∧
      stF.treeList = st.treeList := by
  obtain ⟨stF, heq, hin, hout, htl⟩ :=
    listChildrenLoop_spec (childrenOf st obj) st 0 max hnd hlive
  rw [Nat.sub_zero] at heq hin hout
  refine ⟨stF, ?_, List.length_take_le max _, hin, hout, htl⟩
  simp only [vlc_list_children, heq]
  simp

theorem spec_c8_w :
    ∃ stF, vlc_list_children wSt2 0 1 =
        some (stF, (childrenOf wSt2 0).take 1, (childrenOf wSt2 0).length,
              Event.lockTree ::
                (((childrenOf wSt2 0).take 1).map Event.holdCall ++
                 [Event.unlockTree])) ∧
      ((childrenOf wSt2 0).take 1).length ≤ 1 ∧
      (∀ c o, c ∈ (childrenOf wSt2 0).take 1 → wSt2.find c = some o →
        stF.find c = some { o with refs := o.refs + 1 }) ∧
      (∀ x, x ∉ (childrenOf wSt2 0).take 1 → stF.find x = wSt2.find x) ∧
      stF.treeList = wSt2.treeList :=
  spec_c8 wSt2 0 1 (by decide)
    (by
      intro c hc
      have hce : childrenOf wSt2 0 = [1, 2] := by decide
      rw [hce] at hc
      rcases List.mem_cons.mp hc with h | h
      · subst h
        exact ⟨wChild, by decide, by decide⟩
      · have h2 : c = 2 := by simpa using h
        subst h2
        exact ⟨wChild, by decide, by decide⟩)

/-- C6: assuming the recursion fuel covers the whole tree under `root`, the
pointer validator returns a newly held reference — the candidate's counter
incremented by one — exactly when the candidate is a live member of the tree
rooted at `root` (`inTreeB`); when the candidate is not in the tree, and in
particular when it denotes an object whose destruction completed (no longer
in the live heap), it returns no match and leaves the state unchanged. -/
theorem spec_c6 (fuel : Nat) (st : SysState) (root cand : Nat)
    (hf : treeHeightLe fuel st root = true) :
    (∀ o, st.find cand = some o → o.refs ≠ 0 →
      inTreeB fuel st root cand = true →
      ObjectExists fuel st root cand =
        some (st.update cand { o with refs := o.refs + 1 }, some cand) ∧
      (st.update cand { o with refs := o.refs + 1 }).find cand =
        some { o with refs := o.refs + 1 }) ∧
    (inTreeB fuel st root cand = false →
      ObjectExists fuel st root cand = some (st, none)) ∧
    (st.find cand = none → root ≠ cand →
      ObjectExists fuel st root cand = some (st, none)) := by
  have hOE := objectExists_eq fuel st root cand hf
  refine ⟨?_, ?_, ?_⟩
  · intro o ho horefs hin
    have hh := hold_eq_some st cand o ho horefs
    constructor
    · rw [hOE, hin]
      simp [searchResult, hh]
    · exact find_update_self st cand _ o ho
  · intro hin
    rw [hOE, hin]
    simp [searchResult]
  · intro hdead hne
    have hin := inTreeB_eq_false_of_dead st cand hdead fuel root hne
    rw [hOE, hin]
    simp [searchResult]

theorem spec_c6_w :
    ObjectExists 2 wSt2 0 2 =
      some (wSt2.update 2 { wChild with refs := 2 }, some 2) :=
  (((spec_c6 2 wSt2 0 2 (by decide)).1 wChild (by decide) (by decide)
    (by decide)).1)

/-- C10: when the textual pointer parses but does not resolve to a live
member of the tree, the `vars` command logs an error and returns the
distinct `VLC_ENOOBJ` status with the state of every live object unchanged;
when it resolves, the reference held during validation is released only
after the variable dump (the release events follow the dump event in the
trace), the command returns `VLC_SUCCESS`, and every object's state is as
before the command. -/
theorem spec_c10 (fuel : Nat) (st : SysState) (obj p : Nat)
    (hf : treeHeightLe fuel st obj = true) :
    (inTreeB fuel st obj p = false →
      VarsCommand fuel st obj (some p) =
        some (st, VLC_ENOOBJ,
              [Event.lockTree, Event.unlockTree, Event.msgErr obj]) ∧
      VLC_ENOOBJ ≠ VLC_SUCCESS) ∧
    (∀ o, st.find p = some o → o.refs ≠ 0 → inTreeB fuel st obj p = true →
      VarsCommand fuel st obj (some p) =
        some (st.update p o, VLC_SUCCESS,
              [Event.lockTree, Event.unlockTree, Event.printObj p,
               Event.dumpVars p, Event.releaseCall p, Event.decRefs p]) ∧
      (∀ x, (st.update p o).find x = st.find x)) := by
  constructor
  · intro hin
    have h2 : ObjectExists fuel st obj p = some (st, none) := by
      rw [objectExists_eq fuel st obj p hf, hin]
      simp [searchResult]
    constructor
    · simp [VarsCommand, h2]
    · decide
  · intro o ho horefs hin
    cases fuel with
    | zero => simp [treeHeightLe] at hf
    | succ f =>
      have hh := hold_eq_some st p o ho horefs
      have h2 : ObjectExists (f + 1) st obj p =
          some (st.update p { o with refs := o.refs + 1 }, some p) := by
        rw [objectExists_eq (f + 1) st obj p hf, hin]
        simp [searchResult, hh]
      have hfind2 : (st.update p { o with refs := o.refs + 1 }).find p =
          some { o with refs := o.refs + 1 } := find_update_self st p _ o ho
      have hgt : 1 < ({ o with refs := o.refs + 1 } : Obj).refs := by
        simp only []
        omega
      have hrel := release_fast_eq f (st.update p { o with refs := o.refs + 1 })
        p { o with refs := o.refs + 1 } hfind2 hgt
      rw [update_update] at hrel
      constructor
      · simp only [VarsCommand, h2, hrel]
        rfl
      · intro x
        exact find_update_of_self st p o ho x

theorem spec_c10_w :
    VarsCommand 2 wSt2 0 (some 7) =
      some (wSt2, VLC_ENOOBJ,
            [Event.lockTree, Event.unlockTree, Event.msgErr 0]) ∧
    VarsCommand 2 wSt2 0 (some 2) =
      some (wSt2.update 2 wChild, VLC_SUCCESS,
            [Event.lockTree, Event.unlockTree, Event.printObj 2,
             Event.dumpVars 2, Event.releaseCall 2, Event.decRefs 2]) :=
  ⟨((spec_c10 2 wSt2 0 7 (by decide)).1 (by decide)).1,
   ((spec_c10 2 wSt2 0 2 (by decide)).2 wChild (by decide) (by decide)
     (by decide)).1⟩

end VlcObjects
